import Mathlib

/-!
Verification development for the syncthing-resolver conflict daemon
(source: src/syncthing-deconflict.js).

The JavaScript source is shallowly embedded: the filesystem is a tree of
named nodes, the process-wide `processingFiles` set is a list of absolute
paths, and each pipeline invocation (`handleFileEvent`) is a pure function
from a world state plus external inputs (the merge subprocess outcome and
the wall clock) to a new world state and a trace of observable events
(console log lines, sleeps, subprocess spawns).

Strings are modelled through their character lists.  JavaScript string
comparison (used by `Array.prototype.sort`) compares UTF-16 code units;
for the code points that occur here this coincides with comparing Lean
character values, which is how `charListLe` below is defined.
-/

namespace SyncResolver

/-! ## Character and string utilities -/

/-- Lower-case an ASCII letter, leaving other characters unchanged.  This is
the fragment of JavaScript `toLowerCase` (and of the `i` regex flag)
exercised by the daemon. -/
def lowerChar (c : Char) : Char :=
  if 'A' ≤ c ∧ c ≤ 'Z' then Char.ofNat (c.toNat + 32) else c

/-- Lower-case a string character-wise (model of `String.prototype.toLowerCase`). -/
def lowerStr (s : String) : String :=
  ⟨s.data.map lowerChar⟩

/-- Decide whether a character is a decimal digit (regex class `[0-9]`). -/
def isDigitChar (c : Char) : Bool :=
  '0' ≤ c && c ≤ '9'

/-- Decide whether a character matches the regex class `[A-Z0-9]` under the
case-insensitive flag, i.e. an ASCII letter or digit. -/
def isPeerChar (c : Char) : Bool :=
  isDigitChar c || ('A' ≤ c && c ≤ 'Z') || ('a' ≤ c && c ≤ 'z')

/-- Test whether the first list is an initial segment of the second. -/
def startsWithList : List Char → List Char → Bool
  | [], _ => true
  | _ :: _, [] => false
  | a :: as, b :: bs => a == b && startsWithList as bs

/-- Test whether `pat` occurs as a contiguous sublist of `cs`
(model of JavaScript `String.prototype.includes`). -/
def hasSubList (pat : List Char) : List Char → Bool
  | [] => startsWithList pat []
  | c :: rest => startsWithList pat (c :: rest) || hasSubList pat rest

/-- Model of `String.prototype.includes`. -/
def containsSub (s pat : String) : Bool :=
  hasSubList pat.data s.data

/-- Model of `String.prototype.startsWith`. -/
def strStartsWith (s pre : String) : Bool :=
  startsWithList pre.data s.data

/-- Model of `String.prototype.endsWith` (case sensitive, as used for the
`.tmp` check in `handleFileEvent`). -/
def strEndsWith (s suf : String) : Bool :=
  startsWithList suf.data.reverse s.data.reverse

/-- JavaScript string comparison as performed by the default
`Array.prototype.sort` comparator: lexicographic on code units. -/
def charListLe : List Char → List Char → Bool
  | [], _ => true
  | _ :: _, [] => false
  | a :: as, b :: bs =>
    if a.toNat < b.toNat then true
    else if b.toNat < a.toNat then false
    else charListLe as bs

/-- Order on strings used to model the JavaScript `sort()` call on backup
candidate paths. -/
def jsLe (a b : String) : Prop :=
  charListLe a.data b.data = true

instance : DecidableRel jsLe := fun a b =>
  instDecidableEqBool (charListLe a.data b.data) true

/-- Join a list of strings with a separator. -/
def joinWith (sep : String) : List String → String
  | [] => ""
  | [s] => s
  | s :: rest => s ++ sep ++ joinWith sep rest

/-! ## Path manipulation

Models of the Node.js `path` module functions used by the source, for
already-normalised paths (no `..` segments, `/` separator). -/

/-- Split a character list at `/` separators. -/
def splitSegsAux : List Char → List Char → List String
  | cur, [] => [⟨cur.reverse⟩]
  | cur, '/' :: rest => (⟨cur.reverse⟩ : String) :: splitSegsAux [] rest
  | cur, c :: rest => splitSegsAux (c :: cur) rest

/-- Path segments of a path string, dropping empty segments. -/
def pathSegs (p : String) : List String :=
  (splitSegsAux [] p.data).filter (fun s => s ≠ "")

/-- Model of `path.join` on a list of parts: concatenates the segments,
dropping `.` segments, keeping the absoluteness of the first part. -/
def joinPaths (parts : List String) : String :=
  let isAbs := match parts with
    | p :: _ => strStartsWith p "/"
    | [] => false
  let segs := ((parts.map pathSegs).flatten).filter (fun s => s ≠ ".")
  (if isAbs then "/" else "") ++ joinWith "/" segs

/-- Model of `path.basename`. -/
def basenameStr (p : String) : String :=
  ((pathSegs p).getLast?).getD ""

/-- Model of `path.dirname`. -/
def dirnameStr (p : String) : String :=
  let abs := strStartsWith p "/"
  match pathSegs p with
  | [] => if abs then "/" else "."
  | [_] => if abs then "/" else "."
  | s :: s2 :: rest =>
    (if abs then "/" else "") ++ joinWith "/" ((s :: s2 :: rest).dropLast)

/-- Drop the common leading segments of two segment lists. -/
def dropCommonSegs : List String → List String → List String × List String
  | a :: as, b :: bs =>
    if a = b then dropCommonSegs as bs else (a :: as, b :: bs)
  | as, bs => (as, bs)

/-- Model of `path.relative` for two absolute, normalised paths. -/
def relativePath (fromP toP : String) : String :=
  let p := dropCommonSegs (pathSegs fromP) (pathSegs toP)
  joinWith "/" (p.1.map (fun _ => "..") ++ p.2)

/-- Model of `path.resolve` for a single argument: absolute paths are kept,
relative ones are joined onto the current working directory. -/
def resolvePath (cwd p : String) : String :=
  if strStartsWith p "/" then p else joinPaths [cwd, p]

/-! ## Filesystem model

A filesystem is a tree of named nodes.  Mutual inductives (rather than a
node carrying a `List` of children) keep every function below structurally
recursive, so that concrete executions reduce inside the kernel. -/

mutual
/-- A filesystem node: a regular file with string content, or a directory. -/
inductive FNode where
  | file (content : String) : FNode
  | dir (entries : FEntries) : FNode
deriving Repr
/-- The named children of a directory, in `readdirSync` order. -/
inductive FEntries where
  | nil : FEntries
  | cons (name : String) (node : FNode) (rest : FEntries) : FEntries
deriving Repr
end

/-- Build directory entries from a list of name-node pairs. -/
def entriesOf : List (String × FNode) → FEntries
  | [] => FEntries.nil
  | (n, nd) :: rest => FEntries.cons n nd (entriesOf rest)

/-- Look up a child by name (first match). -/
def lookupEntries : FEntries → String → Option FNode
  | FEntries.nil, _ => none
  | FEntries.cons n nd rest, name =>
    if n = name then some nd else lookupEntries rest name

/-- Replace or add a child by name. -/
def setEntry : FEntries → String → FNode → FEntries
  | FEntries.nil, name, nd => FEntries.cons name nd FEntries.nil
  | FEntries.cons n e rest, name, nd =>
    if n = name then FEntries.cons name nd rest
    else FEntries.cons n e (setEntry rest name nd)

/-- Remove a child by name. -/
def removeEntry : FEntries → String → FEntries
  | FEntries.nil, _ => FEntries.nil
  | FEntries.cons n e rest, name =>
    if n = name then rest else FEntries.cons n e (removeEntry rest name)

/-- Resolve a segment path against a root directory. -/
def lookupNode (es : FEntries) : List String → Option FNode
  | [] => some (FNode.dir es)
  | s :: rest =>
    match lookupEntries es s with
    | some (FNode.file c) => if rest = [] then some (FNode.file c) else none
    | some (FNode.dir sub) => lookupNode sub rest
    | none => none

/-- Model of `fs.existsSync`. -/
def existsPath (es : FEntries) (p : String) : Bool :=
  (lookupNode es (pathSegs p)).isSome

/-- Model of `fs.lstatSync(p).isFile()`, with a missing path treated as the
caught exception branch (false). -/
def isRegularFile (es : FEntries) (p : String) : Bool :=
  match lookupNode es (pathSegs p) with
  | some (FNode.file _) => true
  | _ => false

/-- Model of `fs.readFileSync`, returning `none` where the source would
throw (missing path or directory). -/
def readFileOpt (es : FEntries) (segs : List String) : Option String :=
  match lookupNode es segs with
  | some (FNode.file c) => some c
  | _ => none

/-- Write a file at a segment path, creating or replacing it.  The parent
directories must already exist (as in `fs.writeFileSync`); otherwise the
filesystem is returned unchanged (the callers in this development only
write below existing directories). -/
def writeFileAt (es : FEntries) : List String → String → FEntries
  | [], _ => es
  | [name], c => setEntry es name (FNode.file c)
  | name :: s :: rest, c =>
    match lookupEntries es name with
    | some (FNode.dir sub) => setEntry es name (FNode.dir (writeFileAt sub (s :: rest) c))
    | _ => es

/-- Model of `fs.unlinkSync` on an existing regular file; other paths are
left unchanged (the callers guard with `existsSync`). -/
def unlinkAt (es : FEntries) : List String → FEntries
  | [] => es
  | [name] =>
    match lookupEntries es name with
    | some (FNode.file _) => removeEntry es name
    | _ => es
  | name :: s :: rest =>
    match lookupEntries es name with
    | some (FNode.dir sub) => setEntry es name (FNode.dir (unlinkAt sub (s :: rest)))
    | _ => es

/-- Model of `fs.mkdirSync(dir, recursive)`. -/
def mkdirpAt (es : FEntries) : List String → FEntries
  | [] => es
  | name :: rest =>
    match lookupEntries es name with
    | some (FNode.dir sub) => setEntry es name (FNode.dir (mkdirpAt sub rest))
    | some (FNode.file _) => es
    | none => setEntry es name (FNode.dir (mkdirpAt FEntries.nil rest))

/-- Model of `fs.appendFileSync`: append to an existing file, or create it
below an existing parent directory. -/
def appendFileAt (es : FEntries) (segs : List String) (c : String) : FEntries :=
  match lookupNode es segs with
  | some (FNode.file old) => writeFileAt es segs (old ++ c)
  | _ => writeFileAt es segs c

/-- Model of `fs.copyFileSync`. -/
def copyFileAt (es : FEntries) (src dst : String) : FEntries :=
  match lookupNode es (pathSegs src) with
  | some (FNode.file c) => writeFileAt es (pathSegs dst) c
  | _ => es

/-! ## Filename Classifier

Embedding of the conflict-name regular expression from `handleFileEvent`:

  `/^(.*?)(?:\.|%2F)sync-conflict-([0-9]{8})-([0-9]{6})-([A-Z0-9]{7})\.?(.*)$/i`

The lazy group `(.*?)` makes the engine try base-name split points from the
shortest; at a given split the remainder of the pattern is deterministic
(the two separator alternatives start with distinct characters, all other
parts are fixed width, and `\.?` followed by `(.*)$` never backtracks). -/

/-- Character list of the literal `sync-conflict-`. -/
def syncLit : List Char := "sync-conflict-".data

/-- Strip a case-insensitive occurrence of `lit` from the front of a
character list, returning the remainder. -/
def stripCI : List Char → List Char → Option (List Char)
  | [], rest => some rest
  | _ :: _, [] => none
  | l :: ls, c :: cs => if lowerChar c = lowerChar l then stripCI ls cs else none

/-- Take exactly `n` characters satisfying `p` from the front of a list. -/
def takeCount (p : Char → Bool) : Nat → List Char → Option (List Char × List Char)
  | 0, cs => some ([], cs)
  | _ + 1, [] => none
  | n + 1, c :: cs =>
    if p c then (takeCount p n cs).map (fun r => (c :: r.1, r.2)) else none

/-- Consume one expected character from the front of a list. -/
def expectChar (x : Char) : List Char → Option (List Char)
  | c :: r => if c = x then some r else none
  | [] => none

/-- Consume the separator alternation `(?:\.|%2F)` (case-insensitive: the
`F` may be lower case; `%` and `2` have no case). -/
def parseSep (cs : List Char) : Option (List Char) :=
  match cs with
  | c :: rest =>
    if c = '.' then some rest
    else if c = '%' then
      match rest with
      | c2 :: c3 :: rest2 =>
        if c2 = '2' ∧ (c3 = 'F' ∨ c3 = 'f') then some rest2 else none
      | _ => none
    else none
  | [] => none

/-- Capture groups 2-5 of the conflict regex. -/
structure TailMatch where
  date : List Char
  time : List Char
  peer : List Char
  ext : List Char
deriving DecidableEq, Repr

/-- Parse everything after the separator: the `sync-conflict-` literal, the
date, time and peer groups, the greedy optional dot (`\.?`), and the
extension (`(.*)$`). -/
def parseTail (cs : List Char) : Option TailMatch :=
  match stripCI syncLit cs with
  | none => none
  | some r1 =>
    match takeCount isDigitChar 8 r1 with
    | none => none
    | some (d, r2) =>
      match expectChar '-' r2 with
      | none => none
      | some r3 =>
        match takeCount isDigitChar 6 r3 with
        | none => none
        | some (t, r4) =>
          match expectChar '-' r4 with
          | none => none
          | some r5 =>
            match takeCount isPeerChar 7 r5 with
            | none => none
            | some (pr, r6) =>
              match expectChar '.' r6 with
              | some r7 => some ⟨d, t, pr, r7⟩
              | none => some ⟨d, t, pr, r6⟩

/-- Result of a successful classification: the five capture groups, as
destructured in `handleFileEvent`. -/
structure ConflictMatch where
  base : String
  date : String
  time : String
  peer : String
  ext : String
deriving DecidableEq, Repr

/-- Attempt the whole pattern after the lazy group at the current
position: a separator followed by the tail. -/
def tryAt (cs : List Char) : Option TailMatch :=
  match parseSep cs with
  | some r => parseTail r
  | none => none

/-- Backtracking loop of the conflict regex: `pre` holds the (reversed)
characters committed to the lazy base-name group so far; the engine tries
the rest of the pattern at the current position and on failure moves one
character into the lazy group (`tryAt []` never succeeds, since the
separator needs at least one character). -/
def classifyAux : List Char → List Char → Option ConflictMatch
  | pre, [] =>
    match tryAt [] with
    | some tm =>
      some ⟨⟨pre.reverse⟩, ⟨tm.date⟩, ⟨tm.time⟩, ⟨tm.peer⟩, ⟨tm.ext⟩⟩
    | none => none
  | pre, c :: cs2 =>
    match tryAt (c :: cs2) with
    | some tm =>
      some ⟨⟨pre.reverse⟩, ⟨tm.date⟩, ⟨tm.time⟩, ⟨tm.peer⟩, ⟨tm.ext⟩⟩
    | none => classifyAux (c :: pre) cs2

/-- The Filename Classifier: match a file name against the conflict regex
and extract the capture groups. -/
def classifyName (s : String) : Option ConflictMatch :=
  classifyAux [] s.data

/-! ## Temp/Ghost pattern and the recursive walker -/

/-- Test whether the remainder after `[.~]syncthing[.~]` matches
`.*\.tmp$` case-insensitively, i.e. ends with `.tmp`. -/
def endsWithTmpCI (cs : List Char) : Bool :=
  startsWithList (['.', 't', 'm', 'p'].reverse) ((cs.map lowerChar).reverse)

/-- Test the pattern `[.~]syncthing[.~].*\.tmp$` anchored at the head of the
list. -/
def tempHere (cs : List Char) : Bool :=
  match cs with
  | [] => false
  | c :: rest =>
    (c == '.' || c == '~') &&
      (match stripCI "syncthing".data rest with
       | some (c2 :: r2) => (c2 == '.' || c2 == '~') && endsWithTmpCI r2
       | _ => false)

/-- Unanchored scan for the syncthing temp-file pattern
`/[.~]syncthing[.~].*\.tmp$/i`. -/
def tempScan : List Char → Bool
  | [] => false
  | c :: rest => tempHere (c :: rest) || tempScan rest

/-- Model of the `isSyncthingTemp` test in the unified file walker. -/
def isSyncTempName (name : String) : Bool :=
  tempScan name.data

/-- Model of the `isHidden` test in the unified file walker. -/
def isHiddenName (n : String) : Bool :=
  strStartsWith n "." || strStartsWith n "~"

mutual
/-- Contribution of one named node to the recursive file walk, as a list of
paths relative to the surrounding directory.  A directory is skipped when
hidden (unless it is the versions directory) or named `node_modules`; a
file is collected when it is not hidden or looks like a syncthing temp
file — exactly the tests of `getFilesRecursive`. -/
def nodeRelFiles (vdn name : String) : FNode → List String
  | FNode.file _ =>
    if !isHiddenName name || isSyncTempName name then [name] else []
  | FNode.dir sub =>
    if (strStartsWith name "." && name ≠ vdn) || name = "node_modules" then []
    else (entriesRelFiles vdn sub).map (fun p => name ++ "/" ++ p)
/-- File walk over directory entries, in `readdirSync` order. -/
def entriesRelFiles (vdn : String) : FEntries → List String
  | FEntries.nil => []
  | FEntries.cons name nd rest => nodeRelFiles vdn name nd ++ entriesRelFiles vdn rest
end

/-- Embedding of `getFilesRecursive dirPath`: the relative walk of the
entries of `dirPath`, prefixed with `dirPath` as `path.join` does in the
source (the source threads the full path through the recursion; prefixing
the relative walk yields the identical path strings and keeps the
definition structurally recursive). -/
def walkEntries (vdn dirPath : String) (es : FEntries) : List String :=
  (entriesRelFiles vdn es).map (fun p => dirPath ++ "/" ++ p)

/-! ## Ancestor Resolver -/

/-- Embedding of the `backupRegex` test from `handleFileEvent`, applied to a
candidate base name:

  with extension:    `^BASE~([0-9]{8})-([0-9]{6})\.EXT$`
  without extension: `^BASE~([0-9]{8})-([0-9]{6})$`

The base name and extension are escaped with `escapeRegex` in the source,
so they match as literal text, which is what this function checks. -/
def backupNameMatches (base ext name : String) : Bool :=
  let rest0 := name.data
  (startsWithList (base.data ++ ['~']) rest0) &&
    (let r1 := rest0.drop (base.data.length + 1)
     match takeCount isDigitChar 8 r1 with
     | none => false
     | some (_, r2) =>
       match r2 with
       | '-' :: r3 =>
         match takeCount isDigitChar 6 r3 with
         | none => false
         | some (_, r4) =>
           if ext = "" then r4.isEmpty
           else r4 == '.' :: ext.data
       | _ => false)

/-- Candidate ancestor snapshots: the walker output filtered by
`backupRegex` on the base name of each full path. -/
def backupCandidatesOf (vdn versionsFolder : String) (es : FEntries)
    (base ext : String) : List String :=
  (walkEntries vdn versionsFolder es).filter
    (fun f => backupNameMatches base ext (basenameStr f))

/-- The candidates after `sort().reverse()`: ascending JavaScript string
sort on the full candidate paths, then reversed. -/
def sortedBackupsOf (vdn versionsFolder : String) (es : FEntries)
    (base ext : String) : List String :=
  ((backupCandidatesOf vdn versionsFolder es base ext).insertionSort jsLe).reverse

/-- Embedding of the selection `candidates.sort().reverse()[0]`. -/
def selectLatestBackup (vdn versionsFolder : String) (es : FEntries)
    (base ext : String) : Option String :=
  (sortedBackupsOf vdn versionsFolder es base ext).head?

/-! ## Configuration, world state and observable events -/

/-- The fields of `CONFIG` consumed by the reconciliation pipeline,
together with the process working directory used by `path.resolve`.
(`watchPath` and `verbose` are read only by the startup scanner and never,
respectively, so they are not needed here.) -/
structure Config where
  cwd : String
  syncRootPath : String
  versionsDirName : String
  gitBinary : String
  settleDelayMs : Nat
  dryRun : Bool
  useUnionMerge : Bool
  allowedExtensions : List String
  backupBeforeMerge : Bool
  mergeLogPath : String
deriving Repr

/-- Observable side effects of a pipeline invocation other than filesystem
mutation: console log lines (modulo their timestamp prefix), timed waits,
and subprocess spawns. -/
inductive Event where
  | log (level msg : String) : Event
  | sleepMs (n : Nat) : Event
  | spawn (bin : String) (args : List String) : Event
deriving DecidableEq, Repr

/-- Process-wide mutable state: the root filesystem entries and the
`processingFiles` set (as a list of absolute paths). -/
structure World where
  fs : FEntries
  processing : List String

/-- Model of `Set.prototype.add` on the processing list. -/
def addSet (a : String) (l : List String) : List String :=
  if l.contains a then l else a :: l

/-- Outcome of the `spawnSync` call inside `mergeFiles`: a launch error
(`result.error` set) or an exited process with an optional numeric status
(`result.status`, which is `null` when the process was killed by a
signal). -/
inductive MergeSpawn where
  | launchErr (msg : String) : MergeSpawn
  | exited (status : Option Int) : MergeSpawn
deriving DecidableEq, Repr

/-- Model of the JavaScript coercion `result.status || 0`. -/
def jsOrZero : Option Int → Int
  | none => 0
  | some n => if n = 0 then 0 else n

/-- Model of `deviceId || (String)`: an empty string is falsy. -/
def jsOrStr (s dflt : String) : String :=
  if s = "" then dflt else s

/-! ## Merge Orchestrator -/

/-- The argument list built in `mergeFiles`: the `merge-file` subcommand,
the optional `--union` flag, the three `-L` label pairs, and the three file
paths. -/
def mergeFilesArgs (cfg : Config) (original base conflict deviceId : String) :
    List String :=
  ["merge-file"] ++ (if cfg.useUnionMerge then ["--union"] else []) ++
    ["-L", "Our Local Version",
     "-L", "Base (Historical)",
     "-L", "Remote Change (Device: " ++ jsOrStr deviceId "Unknown" ++ ")"] ++
    [original, base, conflict]

/-- Embedding of `mergeFiles`: log the would-be invocation, return the
sentinel `-1` in dry-run mode without spawning, otherwise spawn the merge
tool and return `result.status || 0`, or propagate a launch error as a
thrown exception (`Except.error`). -/
def mergeFiles (cfg : Config) (original base conflict deviceId : String)
    (spawnRes : MergeSpawn) : Except String Int × List Event :=
  let args := mergeFilesArgs cfg original base conflict deviceId
  let evLog := Event.log "MERGE" (cfg.gitBinary ++ " " ++ joinWith " " args)
  if cfg.dryRun then (Except.ok (-1), [evLog])
  else
    match spawnRes with
    | MergeSpawn.launchErr m =>
      (Except.error ("Git failed: " ++ m), [evLog, Event.spawn cfg.gitBinary args])
    | MergeSpawn.exited st =>
      (Except.ok (jsOrZero st), [evLog, Event.spawn cfg.gitBinary args])

/-! ## Audit Logger -/

/-- Embedding of `formatMergeLogEntry`. -/
def formatMergeLogEntry (nowIso originalFile conflictFile baseFile status deviceId : String)
    (error : Option String) : String :=
  let deviceStr := if deviceId = "" then "" else " (Device: " ++ deviceId ++ ")"
  "## " ++ nowIso ++ "\n" ++
    "- **Status:** " ++ status ++ "\n" ++
    "- **File:** `" ++ originalFile ++ "`\n" ++
    "- **Conflict:** `" ++ conflictFile ++ "`" ++ deviceStr ++ "\n" ++
    "- **Base:** `" ++ baseFile ++ "`\n" ++
    (match error with
     | some e => "- **Error:** " ++ e ++ "\n"
     | none => "") ++
    "\n---\n\n"

/-- The header written when the merge log file is first created. -/
def mergeLogHeader : String := "# Syncthing Merge Log\n\n---\n\n"

/-- Embedding of `appendMergeLog`: no-op when no log path is configured,
otherwise resolve the path, create the parent directory if missing, write
the header on first creation, and append the entry. -/
def appendMergeLog (cfg : Config) (es : FEntries) (entry : String) :
    FEntries :=
  if cfg.mergeLogPath = "" then es
  else
    let logPath := resolvePath cfg.cwd cfg.mergeLogPath
    let d := dirnameStr logPath
    let es1 := if existsPath es d then es else mkdirpAt es (pathSegs d)
    let es2 :=
      if existsPath es1 logPath then es1
      else writeFileAt es1 (pathSegs logPath) mergeLogHeader
    appendFileAt es2 (pathSegs logPath) entry

/-! ## Temp cleanup (targeted mode) -/

/-- Embedding of `cleanupSyncthingTemp`: after a 500 ms grace wait, check
the two platform temp-name variants of the just-processed conflict file and
delete any that exist (unless dry-run). -/
def cleanupSyncthingTemp (cfg : Config) (es : FEntries) (filePath : String) :
    FEntries × List Event :=
  let d := dirnameStr filePath
  let fileName := basenameStr filePath
  let variations := ["~syncthing~" ++ fileName ++ ".tmp", ".syncthing." ++ fileName ++ ".tmp"]
  variations.foldl
    (fun acc tempName =>
      let tempPath := joinPaths [d, tempName]
      if existsPath acc.1 tempPath then
        ((if cfg.dryRun then acc.1 else unlinkAt acc.1 (pathSegs tempPath)),
         acc.2 ++ [Event.log "CLEAN" ("Removed: " ++ tempName)])
      else acc)
    (es, [Event.sleepMs 500])

/-! ## Reconciliation Pipeline -/

/-- The logical file name recombined from the classifier output
(`extension ? base.ext : base`). -/
def originalNameOf (m : ConflictMatch) : String :=
  if m.ext ≠ "" then m.base ++ "." ++ m.ext else m.base

/-- The logical file path: the original name next to the conflict
artifact. -/
def originalPathOf (absConflictPath : String) (m : ConflictMatch) : String :=
  joinPaths [dirnameStr absConflictPath, originalNameOf m]

/-- The mirrored versions subfolder for a logical file path:
`path.join(absRoot, versionsDirName, path.dirname(path.relative(absRoot,
originalFilePath)))`. -/
def versionsFolderOf (cfg : Config) (originalFilePath : String) : String :=
  let absRoot := resolvePath cfg.cwd cfg.syncRootPath
  joinPaths [absRoot, cfg.versionsDirName,
    dirnameStr (relativePath absRoot originalFilePath)]

/-- The body of the `try` block of `handleFileEvent`, from the settle sleep
to the audit log append, including the `catch` branch (the trailing ERROR
log line).  Returns the new filesystem and the event trace; the processing
set is handled by the caller, mirroring the `finally` block. -/
def pipelineBody (cfg : Config) (fs0 : FEntries)
    (absConflictPath fileName : String) (m : ConflictMatch)
    (spawnRes : MergeSpawn) (nowIso : String) (epochMs : Nat) :
    FEntries × List Event :=
  let evSleep := Event.sleepMs cfg.settleDelayMs
  if !existsPath fs0 absConflictPath then (fs0, [evSleep])
  else
    let originalFileName := originalNameOf m
    let originalFilePath := originalPathOf absConflictPath m
    if !existsPath fs0 originalFilePath then
      (fs0, [evSleep, Event.log "SKIP" ("Original file not found for " ++ fileName)])
    else
      match readFileOpt fs0 (pathSegs originalFilePath) with
      | none =>
        -- `readFileSync` throws on a directory; caught by the outer catch.
        (fs0, [evSleep, Event.log "ERROR" ("Failed " ++ fileName ++ ": EISDIR")])
      | some originalContent =>
        if containsSub originalContent "<<<<<<<" && !cfg.useUnionMerge then
          (fs0, [evSleep,
                 Event.log "WARN" ("Skipping: \"" ++ originalFileName ++
                   "\" already has markers. Resolve manually.")])
        else
          let relativeOriginal :=
            relativePath (resolvePath cfg.cwd cfg.syncRootPath) originalFilePath
          let versionsFolder := versionsFolderOf cfg originalFilePath
          match lookupNode fs0 (pathSegs versionsFolder) with
          | none =>
            (fs0, [evSleep, Event.log "SKIP" ("No .stversions for " ++ relativeOriginal)])
          | some (FNode.file _) =>
            -- `readdirSync` on a file throws; caught by the outer catch.
            (fs0, [evSleep, Event.log "ERROR" ("Failed " ++ fileName ++ ": ENOTDIR")])
          | some (FNode.dir ves) =>
            match sortedBackupsOf cfg.versionsDirName versionsFolder ves m.base m.ext with
            | [] =>
              (fs0, [evSleep, Event.log "SKIP" ("No versions for " ++ relativeOriginal)])
            | latestBackup :: _ =>
              let fs1 :=
                if cfg.backupBeforeMerge && !cfg.dryRun then
                  copyFileAt fs0 originalFilePath
                    (originalFilePath ++ "." ++ toString epochMs ++ ".bak")
                else fs0
              match mergeFiles cfg originalFilePath latestBackup absConflictPath
                      m.peer spawnRes with
              | (Except.error msg, evs) =>
                (fs1, [evSleep] ++ evs ++
                  [Event.log "ERROR" ("Failed " ++ fileName ++ ": " ++ msg)])
              | (Except.ok mergeExitCode, evs) =>
                let cleaned :=
                  if cfg.dryRun then (fs1, [])
                  else
                    let fsU := unlinkAt fs1 (pathSegs absConflictPath)
                    cleanupSyncthingTemp cfg fsU absConflictPath
                let status :=
                  if mergeExitCode = 0 then "Clean Merge"
                  else "Conflicts Marked (" ++ toString mergeExitCode ++ ")"
                let evSuccess :=
                  Event.log "SUCCESS" ("Resolved: " ++ relativeOriginal ++ " (" ++ status ++ ")")
                let entry := formatMergeLogEntry nowIso relativeOriginal fileName
                  (basenameStr latestBackup) status m.peer none
                let fs3 := appendMergeLog cfg cleaned.1 entry
                (fs3, [evSleep] ++ evs ++ cleaned.2 ++ [evSuccess])

/-- Embedding of `handleFileEvent`: resolve the path, run the entry guards
(processing-set membership, regular-file check, classification, `.tmp`
suffix, extension allow-list), then add the path to the processing set, run
the pipeline body, and unconditionally remove the path again (the
`finally` block).  `isStartupScan` is accepted exactly as in the source,
where it is never read. -/
def handleFileEvent (cfg : Config) (w : World) (filePath : String)
    (isStartupScan : Bool) (spawnRes : MergeSpawn) (nowIso : String) (epochMs : Nat) :
    World × List Event :=
  let absConflictPath := resolvePath cfg.cwd filePath
  if w.processing.contains absConflictPath then (w, [])
  else if !isRegularFile w.fs absConflictPath then (w, [])
  else
    let fileName := basenameStr absConflictPath
    match classifyName fileName with
    | none => (w, [])
    | some m =>
      if strEndsWith fileName ".tmp" then (w, [])
      else if !cfg.allowedExtensions.contains (lowerStr m.ext) then (w, [])
      else
        let r := pipelineBody cfg w.fs absConflictPath fileName m spawnRes nowIso epochMs
        ({ fs := r.1, processing := (addSet absConflictPath w.processing).erase absConflictPath },
         r.2)

/-- Test that a trace contains no subprocess spawn. -/
def noSpawn : List Event → Bool
  | [] => true
  | Event.spawn _ _ :: _ => false
  | _ :: rest => noSpawn rest

/-! ## The conflict-name grammar as written in the specification

These definitions transliterate the grammar of the claim (spec section
4.1): base name, separator `.` or `%2F`, the literal `sync-conflict-`, an
8-digit date, `-`, a 6-digit time, `-`, a 7-character alphanumeric peer
token, and an optional `.` plus extension — so any extension must be
introduced by a dot.  They are compared against the classifier embedded
from the source. -/

/-- Spec-side check of everything after the separator: literal, date, time
and peer token, then either nothing or a dot introducing the extension. -/
def grammarAfterSep (cs : List Char) : Bool :=
  match stripCI syncLit cs with
  | none => false
  | some r1 =>
    match takeCount isDigitChar 8 r1 with
    | none => false
    | some (_, r2) =>
      match expectChar '-' r2 with
      | none => false
      | some r3 =>
        match takeCount isDigitChar 6 r3 with
        | none => false
        | some (_, r4) =>
          match expectChar '-' r4 with
          | none => false
          | some r5 =>
            match takeCount isPeerChar 7 r5 with
            | none => false
            | some (_, r6) =>
              r6.isEmpty || (expectChar '.' r6).isSome

/-- Spec-side conflict grammar: some split of the name into a base name and
a separator-led remainder satisfies `grammarAfterSep`. -/
def grammarMatches (s : String) : Bool :=
  (List.range (s.data.length + 1)).any
    (fun i =>
      match parseSep (s.data.drop i) with
      | some r => grammarAfterSep r
      | none => false)

/-- The grammar as amended: after the peer token the dot is optional even
when an extension follows (any remainder is the extension, with one leading
dot stripped), matching `\.?(.*)$` in the source regex.  A name matches
when the tail pattern succeeds at some split point. -/
def grammarExtMatches (s : String) : Bool :=
  (List.range (s.data.length + 1)).any (fun i => (tryAt (s.data.drop i)).isSome)

/-! ## Concrete fixtures

Small worlds used to instantiate the theorems below on explicit inputs. -/

/-- Configuration with the markers strategy, no pre-merge backup, and an
audit log at `/data/log.md`. -/
def cfgLive : Config :=
  ⟨"/", "/data", ".stversions", "git", 2500, false, false, ["md", "txt"], false, "/data/log.md"⟩

/-- Same configuration with dry-run enabled. -/
def cfgDry : Config := { cfgLive with dryRun := true }

/-- Same configuration with the union strategy. -/
def cfgUnionFix : Config := { cfgLive with useUnionMerge := true }

/-- A conflict artifact name for the logical file `note.md`. -/
def conflictName : String := "note.sync-conflict-20240101-120000-ABCDEFG.md"

/-- Its absolute path inside the watched tree. -/
def cpath : String := "/data/Work/note.sync-conflict-20240101-120000-ABCDEFG.md"

/-- A tree holding the conflict artifact, the logical file, and one
matching ancestor snapshot in the mirrored versions subfolder. -/
def fsMain : FEntries :=
  entriesOf
    [("data", FNode.dir (entriesOf
      [("Work", FNode.dir (entriesOf
        [(conflictName, FNode.file "theirs"), ("note.md", FNode.file "hello")])),
       (".stversions", FNode.dir (entriesOf
        [("Work", FNode.dir (entriesOf
          [("note~20240101-010101.md", FNode.file "base")]))]))]))]

/-- World with `fsMain` and an empty processing set. -/
def wMain : World := ⟨fsMain, []⟩

/-- World in which the artifact path is already mid-pipeline. -/
def wBusy : World := ⟨fsMain, [cpath]⟩

/-- A tree whose logical file already contains conflict-marker syntax (and
which has no versions store). -/
def fsMarked : FEntries :=
  entriesOf
    [("data", FNode.dir (entriesOf
      [("Work", FNode.dir (entriesOf
        [(conflictName, FNode.file "theirs"),
         ("note.md", FNode.file "a<<<<<<<b")]))]))]

/-- World with `fsMarked` and an empty processing set. -/
def wMarked : World := ⟨fsMarked, []⟩

/-- A conflict artifact with a disallowed extension. -/
def xyzName : String := "note.sync-conflict-20240101-120000-ABCDEFG.xyz"

/-- A tree holding only the disallowed-extension artifact. -/
def fsXyz : FEntries :=
  entriesOf
    [("data", FNode.dir (entriesOf
      [("Work", FNode.dir (entriesOf [(xyzName, FNode.file "theirs")]))]))]

/-- World with `fsXyz` and an empty processing set. -/
def wXyz : World := ⟨fsXyz, []⟩

/-- Versions-store entries in which a snapshot with an older (smaller) name
sits in a subfolder whose path sorts above the sibling file. -/
def esNested : FEntries :=
  entriesOf
    [("note~20240301-020202.md", FNode.file "b1"),
     ("sub", FNode.dir (entriesOf [("note~20240101-010101.md", FNode.file "b2")]))]

/-- Versions-store entries with the two snapshots of the claim side by
side in one directory. -/
def esSame : FEntries :=
  entriesOf
    [("note~20240101-010101.md", FNode.file "b1"),
     ("note~20240301-020202.md", FNode.file "b2")]

/-- A name accepted by the source regex whose extension is attached to the
peer token without a separating dot. -/
def dotlessName : String := "a.sync-conflict-20240101-120000-ABC1234xyz"

/-! ## Theorems -/

/-- Helper: a path seen as a regular file exists. -/
theorem isRegularFile_exists {es : FEntries} {p : String}
    (h : isRegularFile es p = true) : existsPath es p = true := by
  unfold isRegularFile at h
  unfold existsPath
  cases hl : lookupNode es (pathSegs p) with
  | none => rw [hl] at h; simp at h
  | some nd => simp

/-- Helper: a readable file exists. -/
theorem readFileOpt_exists {es : FEntries} {p : String} {c : String}
    (h : readFileOpt es (pathSegs p) = some c) : existsPath es p = true := by
  unfold readFileOpt at h
  unfold existsPath
  cases hl : lookupNode es (pathSegs p) with
  | none => rw [hl] at h; simp at h
  | some nd => simp

/-- C1: a path that is already a member of the processing set when
`handleFileEvent` receives it makes the invocation return immediately with
no state change, no filesystem mutation and no observable event. -/
theorem processing_member_noop (cfg : Config) (w : World) (p : String)
    (st : Bool) (sp : MergeSpawn) (now : String) (ep : Nat)
    (h : w.processing.contains (resolvePath cfg.cwd p) = true) :
    handleFileEvent cfg w p st sp now ep = (w, []) := by
  simp only [handleFileEvent]
  rw [if_pos h]

/-- Witness for `processing_member_noop`: the fixture world already holds
the artifact path, and the invocation is a strict no-op. -/
theorem processing_member_noop_witness :
    handleFileEvent cfgLive wBusy cpath false (MergeSpawn.exited (some 0)) "T0" 0 =
      (wBusy, []) :=
  processing_member_noop cfgLive wBusy cpath false (MergeSpawn.exited (some 0)) "T0" 0
    (by decide)

/-- C2: every invocation of `handleFileEvent` leaves the processing set
exactly as it found it: a path added on entry is removed again on every
exit path (the `finally` block), and the guarded early returns never touch
the set, so no path can remain stuck. -/
theorem guard_always_released (cfg : Config) (w : World) (p : String)
    (st : Bool) (sp : MergeSpawn) (now : String) (ep : Nat) :
    (handleFileEvent cfg w p st sp now ep).1.processing = w.processing := by
  simp only [handleFileEvent]
  by_cases h1 : w.processing.contains (resolvePath cfg.cwd p) = true
  · rw [if_pos h1]
  · rw [if_neg h1]
    by_cases h2 : (!isRegularFile w.fs (resolvePath cfg.cwd p)) = true
    · rw [if_pos h2]
    · rw [if_neg h2]
      cases hm : classifyName (basenameStr (resolvePath cfg.cwd p)) with
      | none => rfl
      | some m =>
        dsimp only
        by_cases h3 : strEndsWith (basenameStr (resolvePath cfg.cwd p)) ".tmp" = true
        · rw [if_pos h3]
        · rw [if_neg h3]
          by_cases h4 : (!cfg.allowedExtensions.contains (lowerStr m.ext)) = true
          · rw [if_pos h4]
          · rw [if_neg h4]
            have hc : w.processing.contains (resolvePath cfg.cwd p) = false :=
              Bool.not_eq_true _ |>.mp h1
            simp only [addSet, hc, Bool.false_eq_true, if_false, if_neg]
            exact List.erase_cons_head _ _

/-- C4: the settle sleep is performed even when the invocation originates
from the startup scan: on the fixture world a startup-scan invocation
(`isStartupScan = true`) still emits the settle-delay sleep, because the
source accepts the flag but never reads it. -/
theorem startup_scan_still_sleeps :
    Event.sleepMs 2500 ∈
      (handleFileEvent cfgLive wMain cpath true (MergeSpawn.exited (some 0)) "T0" 0).2 := by
  decide

/-- C8: an input whose classified extension is not in the allow-list after
case folding (including the empty extension when the empty string is not
allow-listed) makes the invocation return with no filesystem mutation, no
event (so no audit entry), and without the path ever being added to the
processing set. -/
theorem disallowed_extension_noop (cfg : Config) (w : World) (p : String)
    (st : Bool) (sp : MergeSpawn) (now : String) (ep : Nat) (m : ConflictMatch)
    (hm : classifyName (basenameStr (resolvePath cfg.cwd p)) = some m)
    (he : cfg.allowedExtensions.contains (lowerStr m.ext) = false) :
    handleFileEvent cfg w p st sp now ep = (w, []) := by
  simp only [handleFileEvent]
  by_cases h1 : w.processing.contains (resolvePath cfg.cwd p) = true
  · rw [if_pos h1]
  · rw [if_neg h1]
    by_cases h2 : (!isRegularFile w.fs (resolvePath cfg.cwd p)) = true
    · rw [if_pos h2]
    · rw [if_neg h2]
      rw [hm]
      dsimp only
      by_cases h3 : strEndsWith (basenameStr (resolvePath cfg.cwd p)) ".tmp" = true
      · rw [if_pos h3]
      · rw [if_neg h3]
        rw [if_pos (by rw [he]; rfl)]

/-- Witness for `disallowed_extension_noop`: a conflict artifact with the
extension `xyz` against the allow-list `[md, txt]` is a strict no-op. -/
theorem disallowed_extension_noop_witness :
    handleFileEvent cfgLive wXyz "/data/Work/note.sync-conflict-20240101-120000-ABCDEFG.xyz"
      false (MergeSpawn.exited (some 0)) "T0" 0 = (wXyz, []) :=
  disallowed_extension_noop cfgLive wXyz
    "/data/Work/note.sync-conflict-20240101-120000-ABCDEFG.xyz"
    false (MergeSpawn.exited (some 0)) "T0" 0
    ⟨"note", "20240101", "120000", "ABCDEFG", "xyz"⟩ (by decide) (by decide)

/-- C9 counterexample: the merge tool is not invoked with the three file
paths immediately after `merge-file [--union]` — six label arguments stand
in between, in both strategies. -/
theorem merge_args_have_labels_between :
    mergeFilesArgs cfgLive "/a" "/b" "/c" "ABCDEFG" ≠ ["merge-file", "/a", "/b", "/c"] ∧
    mergeFilesArgs cfgUnionFix "/a" "/b" "/c" "ABCDEFG" ≠
      ["merge-file", "--union", "/a", "/b", "/c"] := by
  decide

/-- C9 as amended: the merge tool is invoked as `merge-file [--union]
-L (ours label) -L (base label) -L (theirs label) (current) (base)
(theirs)`, with `--union` present exactly when the union strategy is
configured, and this argument list is what a non-dry-run invocation
spawns. -/
theorem merge_invocation_form (cfg : Config) (o b c d : String) (st : Option Int)
    (h : cfg.dryRun = false) :
    (mergeFiles cfg o b c d (MergeSpawn.exited st)).2 =
      [Event.log "MERGE" (cfg.gitBinary ++ " " ++ joinWith " " (mergeFilesArgs cfg o b c d)),
       Event.spawn cfg.gitBinary
         (["merge-file"] ++ (if cfg.useUnionMerge then ["--union"] else []) ++
          ["-L", "Our Local Version", "-L", "Base (Historical)",
           "-L", "Remote Change (Device: " ++ jsOrStr d "Unknown" ++ ")",
           o, b, c])] ∧
    ("--union" ∈ (mergeFilesArgs cfg o b c d).take 2 ↔ cfg.useUnionMerge = true) := by
  constructor
  · simp only [mergeFiles, mergeFilesArgs, h, Bool.false_eq_true, if_false,
      List.append_assoc, List.cons_append, List.nil_append]
  · cases hu : cfg.useUnionMerge with
    | true => simp [mergeFilesArgs, hu]
    | false => simp [mergeFilesArgs, hu]

/-- Witness for `merge_invocation_form`: both strategies at a concrete
invocation. -/
theorem merge_invocation_form_witness :
    ("--union" ∈ (mergeFilesArgs cfgUnionFix "/a" "/b" "/c" "ABCDEFG").take 2 ↔
      cfgUnionFix.useUnionMerge = true) ∧
    ("--union" ∈ (mergeFilesArgs cfgLive "/a" "/b" "/c" "ABCDEFG").take 2 ↔
      cfgLive.useUnionMerge = true) :=
  ⟨(merge_invocation_form cfgUnionFix "/a" "/b" "/c" "ABCDEFG" (some 0) rfl).2,
   (merge_invocation_form cfgLive "/a" "/b" "/c" "ABCDEFG" (some 0) rfl).2⟩

/-- C10: a merge subprocess that exits without a numeric status
(`result.status` null, e.g. killed by a signal) is coerced to exit code 0
by `result.status || 0`; on the fixture world the pipeline then deletes
the conflict artifact and records the audit status `Clean Merge` although
no clean merge was confirmed. -/
theorem null_status_counts_as_clean_merge :
    jsOrZero none = 0 ∧
    (∀ o b c d : String,
      (mergeFiles cfgLive o b c d (MergeSpawn.exited none)).1 = Except.ok 0) ∧
    existsPath
      (handleFileEvent cfgLive wMain cpath false (MergeSpawn.exited none) "T0" 0).1.fs
      cpath = false ∧
    (match readFileOpt
        (handleFileEvent cfgLive wMain cpath false (MergeSpawn.exited none) "T0" 0).1.fs
        (pathSegs "/data/log.md") with
     | some s => containsSub s "Clean Merge"
     | none => false) = true := by
  refine ⟨rfl, fun o b c d => rfl, by decide, by decide⟩

/-- Helper: with dry-run enabled the pipeline body spawns nothing and
changes the filesystem at most by an audit-log append. -/
theorem pipelineBody_dry (cfg : Config) (fs0 : FEntries) (acp fn : String)
    (m : ConflictMatch) (sp : MergeSpawn) (now : String) (ep : Nat)
    (h : cfg.dryRun = true) :
    noSpawn (pipelineBody cfg fs0 acp fn m sp now ep).2 = true ∧
    ((pipelineBody cfg fs0 acp fn m sp now ep).1 = fs0 ∨
      ∃ e, (pipelineBody cfg fs0 acp fn m sp now ep).1 = appendMergeLog cfg fs0 e) := by
  simp only [pipelineBody]
  by_cases h1 : (!existsPath fs0 acp) = true
  · rw [if_pos h1]; exact ⟨rfl, Or.inl rfl⟩
  · rw [if_neg h1]
    by_cases h2 : (!existsPath fs0 (originalPathOf acp m)) = true
    · rw [if_pos h2]; exact ⟨rfl, Or.inl rfl⟩
    · rw [if_neg h2]
      cases hr : readFileOpt fs0 (pathSegs (originalPathOf acp m)) with
      | none => exact ⟨rfl, Or.inl rfl⟩
      | some content =>
        dsimp only
        by_cases h3 : (containsSub content "<<<<<<<" && !cfg.useUnionMerge) = true
        · rw [if_pos h3]; exact ⟨rfl, Or.inl rfl⟩
        · rw [if_neg h3]
          cases hv : lookupNode fs0 (pathSegs (versionsFolderOf cfg (originalPathOf acp m))) with
          | none => exact ⟨rfl, Or.inl rfl⟩
          | some nd =>
            cases nd with
            | file c => exact ⟨rfl, Or.inl rfl⟩
            | dir ves =>
              dsimp only
              cases hb : sortedBackupsOf cfg.versionsDirName
                  (versionsFolderOf cfg (originalPathOf acp m)) ves m.base m.ext with
              | nil => exact ⟨rfl, Or.inl rfl⟩
              | cons latestBackup restB =>
                simp only [mergeFiles, h, Bool.not_true, Bool.and_false, Bool.false_eq_true,
                  if_false, if_true, reduceIte]
                exact ⟨rfl, Or.inr ⟨_, rfl⟩⟩

/-- C3 as amended: with dry-run enabled the pipeline spawns no merge
subprocess and mutates no file other than the configured audit log (which
is still written in dry-run when a log path is configured); the merge
orchestrator logs the exact would-be invocation and returns the sentinel
status `-1`. -/
theorem dry_run_frame (cfg : Config) (w : World) (p : String) (st : Bool)
    (sp : MergeSpawn) (now : String) (ep : Nat) (h : cfg.dryRun = true) :
    noSpawn (handleFileEvent cfg w p st sp now ep).2 = true ∧
    ((handleFileEvent cfg w p st sp now ep).1.fs = w.fs ∨
      ∃ e, (handleFileEvent cfg w p st sp now ep).1.fs = appendMergeLog cfg w.fs e) ∧
    (∀ o b c d : String, ∀ sp2 : MergeSpawn, mergeFiles cfg o b c d sp2 =
      (Except.ok (-1),
       [Event.log "MERGE" (cfg.gitBinary ++ " " ++ joinWith " " (mergeFilesArgs cfg o b c d))])) := by
  have hm3 : ∀ o b c d : String, ∀ sp2 : MergeSpawn, mergeFiles cfg o b c d sp2 =
      (Except.ok (-1),
       [Event.log "MERGE" (cfg.gitBinary ++ " " ++ joinWith " " (mergeFilesArgs cfg o b c d))]) := by
    intro o b c d sp2
    simp only [mergeFiles, h, if_true, reduceIte]
  have main : noSpawn (handleFileEvent cfg w p st sp now ep).2 = true ∧
      ((handleFileEvent cfg w p st sp now ep).1.fs = w.fs ∨
        ∃ e, (handleFileEvent cfg w p st sp now ep).1.fs = appendMergeLog cfg w.fs e) := by
    simp only [handleFileEvent]
    by_cases h1 : w.processing.contains (resolvePath cfg.cwd p) = true
    · rw [if_pos h1]; exact ⟨rfl, Or.inl rfl⟩
    · rw [if_neg h1]
      by_cases h2 : (!isRegularFile w.fs (resolvePath cfg.cwd p)) = true
      · rw [if_pos h2]; exact ⟨rfl, Or.inl rfl⟩
      · rw [if_neg h2]
        cases hm : classifyName (basenameStr (resolvePath cfg.cwd p)) with
        | none => exact ⟨rfl, Or.inl rfl⟩
        | some m =>
          dsimp only
          by_cases h3 : strEndsWith (basenameStr (resolvePath cfg.cwd p)) ".tmp" = true
          · rw [if_pos h3]; exact ⟨rfl, Or.inl rfl⟩
          · rw [if_neg h3]
            by_cases h4 : (!cfg.allowedExtensions.contains (lowerStr m.ext)) = true
            · rw [if_pos h4]; exact ⟨rfl, Or.inl rfl⟩
            · rw [if_neg h4]
              exact pipelineBody_dry cfg w.fs (resolvePath cfg.cwd p)
                (basenameStr (resolvePath cfg.cwd p)) m sp now ep h
  exact ⟨main.1, main.2, hm3⟩

/-- Witness for `dry_run_frame`: concrete dry-run invocation on the
fixture world. -/
theorem dry_run_frame_witness :
    noSpawn (handleFileEvent cfgDry wMain cpath false
      (MergeSpawn.exited (some 0)) "T0" 0).2 = true :=
  (dry_run_frame cfgDry wMain cpath false (MergeSpawn.exited (some 0)) "T0" 0 rfl).1

/-- C3 counterexample: with dry-run enabled and an audit-log path
configured, the pipeline does create a file — the merge log appears at
`/data/log.md` even though the claim asserts that no file is created or
modified in dry-run mode. -/
theorem dry_run_writes_merge_log :
    cfgDry.dryRun = true ∧
    existsPath wMain.fs "/data/log.md" = false ∧
    existsPath (handleFileEvent cfgDry wMain cpath false
      (MergeSpawn.exited (some 0)) "T0" 0).1.fs "/data/log.md" = true := by
  decide

/-- C7: when the logical file already contains conflict-marker syntax and
the markers strategy is configured (`useUnionMerge = false`), the pipeline
stops with a warning — no merge invocation, no filesystem mutation, and
the guard is released; with the union strategy the guard does not apply
(the same marker-laden world proceeds past the guard to the ancestor
lookup). -/
theorem nesting_guard :
    (∀ (cfg : Config) (w : World) (p : String) (st : Bool) (sp : MergeSpawn)
       (now : String) (ep : Nat) (m : ConflictMatch) (content : String),
      w.processing.contains (resolvePath cfg.cwd p) = false →
      isRegularFile w.fs (resolvePath cfg.cwd p) = true →
      classifyName (basenameStr (resolvePath cfg.cwd p)) = some m →
      strEndsWith (basenameStr (resolvePath cfg.cwd p)) ".tmp" = false →
      cfg.allowedExtensions.contains (lowerStr m.ext) = true →
      readFileOpt w.fs (pathSegs (originalPathOf (resolvePath cfg.cwd p) m)) = some content →
      containsSub content "<<<<<<<" = true →
      cfg.useUnionMerge = false →
      handleFileEvent cfg w p st sp now ep =
        (w, [Event.sleepMs cfg.settleDelayMs,
             Event.log "WARN" ("Skipping: \"" ++ originalNameOf m ++
               "\" already has markers. Resolve manually.")])) ∧
    (handleFileEvent cfgUnionFix wMarked cpath false (MergeSpawn.exited (some 0)) "T0" 0).2 =
      [Event.sleepMs 2500, Event.log "SKIP" "No .stversions for Work/note.md"] := by
  constructor
  · intro cfg w p st sp now ep m content hp hf hm ht he hr hmk hu
    have hfe : existsPath w.fs (resolvePath cfg.cwd p) = true := isRegularFile_exists hf
    have hoe : existsPath w.fs (originalPathOf (resolvePath cfg.cwd p) m) = true :=
      readFileOpt_exists hr
    have hbody : pipelineBody cfg w.fs (resolvePath cfg.cwd p)
        (basenameStr (resolvePath cfg.cwd p)) m sp now ep =
        (w.fs, [Event.sleepMs cfg.settleDelayMs,
                Event.log "WARN" ("Skipping: \"" ++ originalNameOf m ++
                  "\" already has markers. Resolve manually.")]) := by
      simp only [pipelineBody]
      rw [if_neg (by simp only [hfe, Bool.not_true]; exact Bool.false_ne_true)]
      rw [if_neg (by simp only [hoe, Bool.not_true]; exact Bool.false_ne_true)]
      rw [hr]
      dsimp only
      rw [if_pos (by simp only [hmk, hu, Bool.not_false, Bool.true_and])]
    simp only [handleFileEvent]
    rw [if_neg (by simp only [hp]; exact Bool.false_ne_true)]
    rw [if_neg (by simp only [hf, Bool.not_true]; exact Bool.false_ne_true)]
    rw [hm]
    dsimp only
    rw [if_neg (by simp only [ht]; exact Bool.false_ne_true)]
    rw [if_neg (by simp only [he, Bool.not_true]; exact Bool.false_ne_true)]
    rw [hbody]
    have hproc : (addSet (resolvePath cfg.cwd p) w.processing).erase (resolvePath cfg.cwd p) =
        w.processing := by
      simp only [addSet, hp, Bool.false_eq_true, if_false]
      exact List.erase_cons_head _ _
    rw [hproc]
  · decide

/-- Witness for `nesting_guard`: on the marker-laden fixture world with
the markers strategy the invocation ends in the warning skip. -/
theorem nesting_guard_witness :
    handleFileEvent cfgLive wMarked cpath false (MergeSpawn.exited (some 0)) "T0" 0 =
      (wMarked, [Event.sleepMs cfgLive.settleDelayMs,
        Event.log "WARN" ("Skipping: \"" ++
          originalNameOf ⟨"note", "20240101", "120000", "ABCDEFG", "md"⟩ ++
          "\" already has markers. Resolve manually.")]) :=
  nesting_guard.1 cfgLive wMarked cpath false (MergeSpawn.exited (some 0)) "T0" 0
    ⟨"note", "20240101", "120000", "ABCDEFG", "md"⟩ "a<<<<<<<b"
    (by decide) (by decide) (by decide) (by decide) (by decide) (by decide) (by decide) rfl

/-- Helper: the JavaScript string order is reflexive. -/
theorem charListLe_refl : ∀ cs : List Char, charListLe cs cs = true
  | [] => rfl
  | c :: cs => by simp [charListLe, Nat.lt_irrefl, charListLe_refl cs]

/-- Helper: the JavaScript string order is total. -/
theorem charListLe_total : ∀ as bs : List Char,
    charListLe as bs = true ∨ charListLe bs as = true := by
  intro as
  induction as with
  | nil => intro bs; exact Or.inl rfl
  | cons a as ih =>
    intro bs
    cases bs with
    | nil => exact Or.inr rfl
    | cons b bs =>
      by_cases h1 : a.toNat < b.toNat
      · left; simp [charListLe, h1]
      · by_cases h2 : b.toNat < a.toNat
        · right; simp [charListLe, h2]
        · rcases ih bs with ic | ic
          · left; simp [charListLe, h1, h2, ic]
          · right; simp [charListLe, h1, h2, ic]

/-- Helper: the JavaScript string order is transitive. -/
theorem charListLe_trans : ∀ as bs cs : List Char, charListLe as bs = true →
    charListLe bs cs = true → charListLe as cs = true := by
  intro as
  induction as with
  | nil => intro bs cs h1 h2; rfl
  | cons a as ih =>
    intro bs cs h1 h2
    cases bs with
    | nil => simp [charListLe] at h1
    | cons b bs =>
      cases cs with
      | nil => simp [charListLe] at h2
      | cons c cs =>
        simp only [charListLe] at h1 h2 ⊢
        by_cases hab : a.toNat < b.toNat
        · by_cases hbc : b.toNat < c.toNat
          · have hac : a.toNat < c.toNat := by omega
            simp [hac]
          · by_cases hcb : c.toNat < b.toNat
            · simp [hbc, hcb] at h2
            · have hac : a.toNat < c.toNat := by omega
              simp [hac]
        · by_cases hba : b.toNat < a.toNat
          · simp [hab, hba] at h1
          · simp only [if_neg hab, if_neg hba] at h1
            by_cases hbc : b.toNat < c.toNat
            · have hac : a.toNat < c.toNat := by omega
              simp [hac]
            · by_cases hcb : c.toNat < b.toNat
              · simp [hbc, hcb] at h2
              · simp only [if_neg hbc, if_neg hcb] at h2
                have h3 : ¬ a.toNat < c.toNat := by omega
                have h4 : ¬ c.toNat < a.toNat := by omega
                simp [if_neg h3, if_neg h4, ih bs cs h1 h2]

/-- Helper: the value of `getLast?` is a member of the list. -/
theorem mem_of_getLast?_eq {l : List String} {m : String}
    (hm : l.getLast? = some m) : m ∈ l := by
  rcases List.mem_getLast?_eq_getLast (Option.mem_def.mpr hm) with ⟨h, heq⟩
  rw [heq]
  exact List.getLast_mem h

/-- Helper: in a list sorted ascending by the JavaScript order, the last
element bounds every member. -/
theorem sorted_getLast?_max {l : List String} {m : String}
    (hs : List.Sorted jsLe l) (hm : l.getLast? = some m) :
    ∀ x ∈ l, jsLe x m := by
  induction l with
  | nil => simp at hm
  | cons a t ih =>
    cases t with
    | nil =>
      simp only [List.getLast?_singleton, Option.some.injEq] at hm
      subst hm
      intro x hx
      simp only [List.mem_singleton] at hx
      subst hx
      exact charListLe_refl _
    | cons b t2 =>
      rw [List.getLast?_cons_cons] at hm
      intro x hx
      rcases List.mem_cons.mp hx with rfl | hx2
      · exact List.rel_of_sorted_cons hs m (mem_of_getLast?_eq hm)
      · exact ih hs.of_cons hm x hx2

/-- C6 as amended: the resolver selects the candidate whose full path (not
base name) is greatest in the JavaScript sort order — an upper bound of
all candidates returned by the recursive search; on the two snapshots of
the claim, which sit side by side in one folder, this is the later one,
`note~20240301-020202.md`. -/
theorem ancestor_selection :
    (∀ (vdn vf : String) (es : FEntries) (b e m : String),
      selectLatestBackup vdn vf es b e = some m →
      ∀ x ∈ backupCandidatesOf vdn vf es b e, jsLe x m) ∧
    selectLatestBackup ".stversions" "/r/.stversions" esSame "note" "md" =
      some "/r/.stversions/note~20240301-020202.md" := by
  constructor
  · intro vdn vf es b e m hm x hx
    unfold selectLatestBackup sortedBackupsOf at hm
    rw [List.head?_reverse] at hm
    have hs : List.Sorted jsLe ((backupCandidatesOf vdn vf es b e).insertionSort jsLe) :=
      @List.sorted_insertionSort String jsLe inferInstance
        ⟨fun a2 b2 => charListLe_total a2.data b2.data⟩
        ⟨fun a2 b2 c2 h1 h2 => charListLe_trans a2.data b2.data c2.data h1 h2⟩
        (backupCandidatesOf vdn vf es b e)
    have hx2 : x ∈ (backupCandidatesOf vdn vf es b e).insertionSort jsLe := by
      rw [List.mem_insertionSort]
      exact hx
    exact sorted_getLast?_max hs hm x hx2
  · decide

/-- C6 counterexample: with a matching snapshot nested one folder deeper,
the resolver picks the snapshot with the lexicographically smaller (older)
base name, because the sort compares full paths — refuting the claim that
the snapshot with the greatest name (most recent timestamp) is selected. -/
theorem ancestor_selection_name_counterexample :
    selectLatestBackup ".stversions" "/r/.stversions" esNested "note" "md" =
      some "/r/.stversions/sub/note~20240101-010101.md" ∧
    "note~20240301-020202.md" ∈
      (backupCandidatesOf ".stversions" "/r/.stversions" esNested "note" "md").map basenameStr ∧
    charListLe (basenameStr "/r/.stversions/sub/note~20240101-010101.md").data
      "note~20240301-020202.md".data = true ∧
    basenameStr "/r/.stversions/sub/note~20240101-010101.md" ≠ "note~20240301-020202.md" := by
  decide

/-- Witness for `ancestor_selection`: the selected snapshot bounds the
other candidate in the fixture store. -/
theorem ancestor_selection_witness :
    jsLe "/r/.stversions/note~20240101-010101.md" "/r/.stversions/note~20240301-020202.md" :=
  ancestor_selection.1 ".stversions" "/r/.stversions" esSame "note" "md"
    "/r/.stversions/note~20240301-020202.md" (by decide)
    "/r/.stversions/note~20240101-010101.md" (by decide)


/-- Helper: a consumed expected character decomposes the list. -/
theorem expectChar_decomp {x : Char} : ∀ {cs r : List Char},
    expectChar x cs = some r → cs = x :: r := by
  intro cs r h
  cases cs with
  | nil => simp [expectChar] at h
  | cons c cs2 =>
    simp only [expectChar] at h
    by_cases hc : c = x
    · rw [if_pos hc] at h
      simp only [Option.some.injEq] at h
      rw [hc, h]
    · rw [if_neg hc] at h
      simp at h

/-- Helper: a successful fixed-width take splits the list into a prefix of
the demanded length, all of whose characters satisfy the class. -/
theorem takeCount_decomp {p : Char → Bool} : ∀ (n : Nat) (cs a r : List Char),
    takeCount p n cs = some (a, r) →
    cs = a ++ r ∧ a.length = n ∧ a.all p = true := by
  intro n
  induction n with
  | zero =>
    intro cs a r h
    simp only [takeCount, Option.some.injEq, Prod.mk.injEq] at h
    obtain ⟨ha, hr⟩ := h
    subst ha; subst hr
    exact ⟨rfl, rfl, rfl⟩
  | succ n ih =>
    intro cs a r h
    cases cs with
    | nil => simp [takeCount] at h
    | cons c cs2 =>
      simp only [takeCount] at h
      by_cases hp : p c = true
      · rw [if_pos hp] at h
        cases hq : takeCount p n cs2 with
        | none => rw [hq] at h; simp at h
        | some pr =>
          rw [hq] at h
          obtain ⟨a2, r2⟩ := pr
          simp only [Option.map_some', Option.some.injEq, Prod.mk.injEq] at h
          obtain ⟨ha, hr⟩ := h
          obtain ⟨hcs, hlen, hall⟩ := ih cs2 a2 r2 hq
          subst hr
          rw [← ha, hcs]
          exact ⟨rfl, by simp [hlen], by simp [List.all_cons, hp, hall]⟩
      · rw [if_neg hp] at h; simp at h

/-- Helper: a successful case-insensitive literal strip splits the list
into a prefix that case-folds to the literal and the remainder. -/
theorem stripCI_decomp : ∀ (lit cs r : List Char), stripCI lit cs = some r →
    ∃ pre, cs = pre ++ r ∧ pre.map lowerChar = lit.map lowerChar := by
  intro lit
  induction lit with
  | nil =>
    intro cs r h
    simp only [stripCI, Option.some.injEq] at h
    exact ⟨[], by simp [h], rfl⟩
  | cons l ls ih =>
    intro cs r h
    cases cs with
    | nil => simp [stripCI] at h
    | cons c cs2 =>
      simp only [stripCI] at h
      by_cases hc : lowerChar c = lowerChar l
      · rw [if_pos hc] at h
        obtain ⟨pre, hcs, hmap⟩ := ih cs2 r h
        exact ⟨c :: pre, by simp [hcs], by simp [hmap, hc]⟩
      · rw [if_neg hc] at h; simp at h

/-- Helper: a successful separator parse consumes `.`, `%2F`, or `%2f`. -/
theorem parseSep_decomp : ∀ (cs r : List Char), parseSep cs = some r →
    ∃ sep, cs = sep ++ r ∧
      (sep = ['.'] ∨ sep = ['%', '2', 'F'] ∨ sep = ['%', '2', 'f']) := by
  intro cs r h
  cases cs with
  | nil => simp [parseSep] at h
  | cons c rest =>
    simp only [parseSep] at h
    by_cases hdot : c = '.'
    · rw [if_pos hdot] at h
      simp only [Option.some.injEq] at h
      exact ⟨['.'], by rw [hdot, h]; rfl, Or.inl rfl⟩
    · rw [if_neg hdot] at h
      by_cases hpc : c = '%'
      · rw [if_pos hpc] at h
        cases rest with
        | nil => simp at h
        | cons c2 rest2 =>
          cases rest2 with
          | nil => simp at h
          | cons c3 rest3 =>
            simp only at h
            by_cases hg : c2 = '2' ∧ (c3 = 'F' ∨ c3 = 'f')
            · rw [if_pos hg] at h
              simp only [Option.some.injEq] at h
              obtain ⟨h2, h3⟩ := hg
              rcases h3 with h3 | h3
              · exact ⟨['%', '2', 'F'], by rw [hpc, h2, h3, h]; rfl, Or.inr (Or.inl rfl)⟩
              · exact ⟨['%', '2', 'f'], by rw [hpc, h2, h3, h]; rfl, Or.inr (Or.inr rfl)⟩
            · rw [if_neg hg] at h
              simp at h
      · rw [if_neg hpc] at h
        simp at h

/-- Helper: a successful tail parse decomposes the input into the
literal, the fixed-width date, time and peer groups, an optional dot, and
the extension. -/
theorem parseTail_decomp : ∀ (cs : List Char) (tm : TailMatch), parseTail cs = some tm →
    ∃ lit dot,
      cs = lit ++ tm.date ++ ['-'] ++ tm.time ++ ['-'] ++ tm.peer ++ dot ++ tm.ext ∧
      lit.map lowerChar = syncLit.map lowerChar ∧
      (dot = ['.'] ∨ dot = []) ∧
      tm.date.length = 8 ∧ tm.date.all isDigitChar = true ∧
      tm.time.length = 6 ∧ tm.time.all isDigitChar = true ∧
      tm.peer.length = 7 ∧ tm.peer.all isPeerChar = true := by
  intro cs tm h
  simp only [parseTail] at h
  cases h1 : stripCI syncLit cs with
  | none => rw [h1] at h; simp at h
  | some r1 =>
    rw [h1] at h
    dsimp only at h
    cases h2 : takeCount isDigitChar 8 r1 with
    | none => rw [h2] at h; simp at h
    | some pr2 =>
      rw [h2] at h
      dsimp only at h
      obtain ⟨d, r2⟩ := pr2
      cases h3 : expectChar '-' r2 with
      | none => rw [h3] at h; simp at h
      | some r3 =>
        rw [h3] at h
        dsimp only at h
        cases h4 : takeCount isDigitChar 6 r3 with
        | none => rw [h4] at h; simp at h
        | some pr4 =>
          rw [h4] at h
          dsimp only at h
          obtain ⟨t, r4⟩ := pr4
          cases h5 : expectChar '-' r4 with
          | none => rw [h5] at h; simp at h
          | some r5 =>
            rw [h5] at h
            dsimp only at h
            cases h6 : takeCount isPeerChar 7 r5 with
            | none => rw [h6] at h; simp at h
            | some pr6 =>
              rw [h6] at h
              dsimp only at h
              obtain ⟨pe, r6⟩ := pr6
              obtain ⟨hr1, hd8, hdall⟩ := takeCount_decomp 8 r1 d r2 h2
              obtain ⟨hr3, ht6, htall⟩ := takeCount_decomp 6 r3 t r4 h4
              obtain ⟨hr5, hp7, hpall⟩ := takeCount_decomp 7 r5 pe r6 h6
              obtain ⟨lit, hcs, hlit⟩ := stripCI_decomp syncLit cs r1 h1
              have hr2 := expectChar_decomp h3
              have hr4 := expectChar_decomp h5
              cases h7 : expectChar '.' r6 with
              | some r7 =>
                rw [h7] at h
                dsimp only at h
                simp only [Option.some.injEq] at h
                subst h
                have hr6 := expectChar_decomp h7
                refine ⟨lit, ['.'], ?_, hlit, Or.inl rfl, hd8, hdall, ht6, htall, hp7, hpall⟩
                rw [hcs, hr1, hr2, hr3, hr4, hr5, hr6]
                simp
              | none =>
                rw [h7] at h
                dsimp only at h
                simp only [Option.some.injEq] at h
                subst h
                refine ⟨lit, [], ?_, hlit, Or.inr rfl, hd8, hdall, ht6, htall, hp7, hpall⟩
                rw [hcs, hr1, hr2, hr3, hr4, hr5]
                simp

/-- Helper: a successful attempt splits into separator and tail parses. -/
theorem tryAt_decomp : ∀ (cs : List Char) (tm : TailMatch), tryAt cs = some tm →
    ∃ r, parseSep cs = some r ∧ parseTail r = some tm := by
  intro cs tm h
  unfold tryAt at h
  cases hp : parseSep cs with
  | none => rw [hp] at h; simp at h
  | some r =>
    rw [hp] at h
    dsimp only at h
    exact ⟨r, rfl, h⟩

/-- Helper: any successful run of the backtracking loop decomposes the
remaining input, with the extracted fields being literal segments. -/
theorem classifyAux_decomp : ∀ (cs pre : List Char) (m : ConflictMatch),
    classifyAux pre cs = some m →
    ∃ b2 sep lit dot,
      cs = b2 ++ sep ++ lit ++ m.date.data ++ ['-'] ++ m.time.data ++ ['-'] ++
        m.peer.data ++ dot ++ m.ext.data ∧
      m.base.data = pre.reverse ++ b2 ∧
      (sep = ['.'] ∨ sep = ['%', '2', 'F'] ∨ sep = ['%', '2', 'f']) ∧
      lit.map lowerChar = syncLit.map lowerChar ∧
      (dot = ['.'] ∨ dot = []) ∧
      m.date.data.length = 8 ∧ m.date.data.all isDigitChar = true ∧
      m.time.data.length = 6 ∧ m.time.data.all isDigitChar = true ∧
      m.peer.data.length = 7 ∧ m.peer.data.all isPeerChar = true := by
  intro cs
  induction cs with
  | nil =>
    intro pre m h
    unfold classifyAux at h
    simp [tryAt, parseSep] at h
  | cons c cs2 ih =>
    intro pre m h
    unfold classifyAux at h
    cases hs : tryAt (c :: cs2) with
    | none =>
      rw [hs] at h
      dsimp only at h
      obtain ⟨b2, sep, lit, dot, hcs, hbase, hrest⟩ := ih (c :: pre) m h
      refine ⟨c :: b2, sep, lit, dot, ?_, ?_, hrest⟩
      · rw [hcs]; simp
      · rw [hbase, List.reverse_cons]; simp
    | some tm =>
      rw [hs] at h
      dsimp only at h
      simp only [Option.some.injEq] at h
      subst h
      obtain ⟨r, hps, hpt⟩ := tryAt_decomp (c :: cs2) tm hs
      obtain ⟨sep, hsepcs, hsep⟩ := parseSep_decomp (c :: cs2) r hps
      obtain ⟨lit, dot, hrcs, hlit, hdot, hrest⟩ := parseTail_decomp r tm hpt
      refine ⟨[], sep, lit, dot, ?_, by simp, hsep, hlit, hdot, hrest⟩
      rw [hsepcs, hrcs]
      simp [List.append_assoc]

/-- Helper: the backtracking loop succeeds exactly when the rest of the
pattern matches at some split position. -/
theorem classifyAux_isSome : ∀ (cs pre : List Char),
    (classifyAux pre cs).isSome =
      (List.range (cs.length + 1)).any (fun i => (tryAt (cs.drop i)).isSome) := by
  intro cs
  induction cs with
  | nil =>
    intro pre
    simp [classifyAux, tryAt, parseSep]
  | cons c cs2 ih =>
    intro pre
    rw [List.range_succ_eq_map, List.any_cons, List.any_map]
    simp only [List.drop_zero, Function.comp, List.drop_succ_cons]
    cases hs : tryAt (c :: cs2) with
    | none =>
      rw [classifyAux, hs]
      dsimp only
      rw [ih (c :: pre)]
      simp [Function.comp_def, List.drop_succ_cons]
    | some tm =>
      rw [classifyAux, hs]
      simp

/-- C5 as amended: the Classifier accepts a name exactly when it matches
the grammar with the dot before the extension optional (the extension may
follow the peer token directly), and every extraction is literal: the
input decomposes into the extracted base name, a separator, the
case-insensitive `sync-conflict-` literal, the extracted 8-digit date,
6-digit time and 7-character alphanumeric peer token, an optional dot, and
the extracted extension. -/
theorem classifier_grammar (s : String) :
    ((classifyName s).isSome = grammarExtMatches s) ∧
    (∀ m : ConflictMatch, classifyName s = some m →
      ∃ sep lit dot : List Char,
        (sep = ['.'] ∨ sep = ['%', '2', 'F'] ∨ sep = ['%', '2', 'f']) ∧
        lit.map lowerChar = syncLit.map lowerChar ∧
        (dot = ['.'] ∨ dot = []) ∧
        m.date.data.length = 8 ∧ m.date.data.all isDigitChar = true ∧
        m.time.data.length = 6 ∧ m.time.data.all isDigitChar = true ∧
        m.peer.data.length = 7 ∧ m.peer.data.all isPeerChar = true ∧
        s.data = m.base.data ++ sep ++ lit ++ m.date.data ++ ['-'] ++ m.time.data ++ ['-'] ++
          m.peer.data ++ dot ++ m.ext.data) := by
  constructor
  · unfold classifyName grammarExtMatches
    exact classifyAux_isSome s.data []
  · intro m h
    obtain ⟨b2, sep, lit, dot, hcs, hbase, hsep, hlit, hdot, hd1, hd2, ht1, ht2, hp1, hp2⟩ :=
      classifyAux_decomp s.data [] m h
    have hb2 : m.base.data = b2 := by simpa using hbase
    refine ⟨sep, lit, dot, hsep, hlit, hdot, hd1, hd2, ht1, ht2, hp1, hp2, ?_⟩
    rw [hcs, hb2]

/-- C5 counterexample: the name `a.sync-conflict-20240101-120000-ABC1234xyz`
does not match the claimed grammar (the extension is attached without its
dot), yet the Classifier accepts it and extracts `xyz` as the
extension. -/
theorem classifier_accepts_dotless_extension :
    classifyName dotlessName =
      some ⟨"a", "20240101", "120000", "ABC1234", "xyz"⟩ ∧
    grammarMatches dotlessName = false := by
  decide

/-- Witness for `classifier_grammar`: both parts at a concrete valid
conflict name. -/
theorem classifier_grammar_witness :
    ((classifyName "Ideas.sync-conflict-20240501-120000-ABC1234.md").isSome =
      grammarExtMatches "Ideas.sync-conflict-20240501-120000-ABC1234.md") ∧
    (∃ sep lit dot : List Char,
      (sep = ['.'] ∨ sep = ['%', '2', 'F'] ∨ sep = ['%', '2', 'f']) ∧
      lit.map lowerChar = syncLit.map lowerChar ∧
      (dot = ['.'] ∨ dot = []) ∧
      ("20240501".data.length = 8 ∧ "20240501".data.all isDigitChar = true) ∧
      ("120000".data.length = 6 ∧ "120000".data.all isDigitChar = true) ∧
      ("ABC1234".data.length = 7 ∧ "ABC1234".data.all isPeerChar = true) ∧
      "Ideas.sync-conflict-20240501-120000-ABC1234.md".data =
        "Ideas".data ++ sep ++ lit ++ "20240501".data ++ ['-'] ++ "120000".data ++ ['-'] ++
          "ABC1234".data ++ dot ++ "md".data) := by
  constructor
  · exact (classifier_grammar "Ideas.sync-conflict-20240501-120000-ABC1234.md").1
  · obtain ⟨sep, lit, dot, hsep, hlit, hdot, hd1, hd2, ht1, ht2, hp1, hp2, heq⟩ :=
      (classifier_grammar "Ideas.sync-conflict-20240501-120000-ABC1234.md").2
        ⟨"Ideas", "20240501", "120000", "ABC1234", "md"⟩ (by decide)
    exact ⟨sep, lit, dot, hsep, hlit, hdot, ⟨hd1, hd2⟩, ⟨ht1, ht2⟩, ⟨hp1, hp2⟩, heq⟩

end SyncResolver
